import Mathlib

/-!
Verification of `src/detect_markers.py`, a scanner that extracts slide-transition
timestamps from word-level speech-transcription output.

Times are embedded as rationals (`ℚ`); Python's `round(x, 2)` is embedded as
round-half-to-even at two decimal places.  Python's substring test `pat in s`
is embedded as `strHas s pat` over the strings' character lists.
-/

/-- Test `subAt pat l` : the character list `pat` is a prefix of `l`. -/
def subAt : List Char → List Char → Bool
  | [], _ => true
  | _ :: _, [] => false
  | p :: ps, c :: cs => p == c && subAt ps cs

/-- Test `hasSub pat l` : `pat` occurs as a contiguous sublist of `l`.
Embeds Python's `pat in s` substring test. -/
def hasSub (pat : List Char) : List Char → Bool
  | [] => subAt pat []
  | c :: cs => subAt pat (c :: cs) || hasSub pat cs

/-- Test `strHas s pat` : Python's `pat in s` on strings. -/
def strHas (s pat : String) : Bool :=
  hasSub pat.data s.data

/-- The phrase-final marker substring `'ください'` from `detect_markers.py`. -/
def kudasai : String := "ください"

/-- The slide-reference keyword `'スライド'` from `detect_markers.py`. -/
def slideKW : String := "スライド"

/-- Round-half-to-even of the fraction `a / d` (for `d > 0`), the rounding
mode of Python's `round`, computed with integer division so that it evaluates
in the kernel. -/
def roundHE (a : ℤ) (d : ℕ) : ℤ :=
  let n : ℤ := a / d
  let r : ℤ := a % d
  if 2 * r < d then n
  else if (d : ℤ) < 2 * r then n + 1
  else if n % 2 = 0 then n else n + 1

/-- Python's `round(x, 2)`: round to two decimal places, ties to even.
`100 * x = (100 * x.num) / x.den`, so this is `roundHE` of that fraction,
divided by `100`. -/
def round2 (x : ℚ) : ℚ :=
  mkRat (roundHE (100 * x.num) x.den) 100

/-- A word token produced by the transcription provider: the token text
(`w['word']`) and its end time in seconds (`w['end']`).  The start time is
unused by the scanner and omitted. -/
structure Word where
  word : String
  endT : ℚ
deriving DecidableEq, Repr

/-- A transcript segment: its full text (`seg['text']`) and its word tokens
(`seg.get('words', [])`, so an absent field is the empty list). -/
structure Segment where
  text : String
  words : List Word
deriving DecidableEq, Repr

/-- The concatenation `''.join(words[j]['word'] for j in range(max(0, i - 8), i))`:
the text of the up-to-8 words preceding index `i`, clamped at the segment
start, joined with no separator. -/
def precedingText (words : List Word) (i : Nat) : String :=
  String.join (((words.take i).drop (i - 8)).map (fun w => w.word))

/-- The inner `for i, w in enumerate(words)` loop of `detect_marker_timestamps`:
scan `rest` (the words from index `i` on, where `words` is the full token list
of the segment); at the first word containing `kudasai` whose preceding
text contains `slideKW`, return its end time rounded to 2 decimals and stop. -/
def scanGo (words : List Word) : Nat → List Word → Option ℚ
  | _, [] => none
  | i, w :: rest =>
    if strHas w.word kudasai = false then scanGo words (i + 1) rest
    else if strHas (precedingText words i) slideKW then some (round2 w.endT)
    else scanGo words (i + 1) rest

/-- The per-segment body of `detect_marker_timestamps`: the `'スライド' not in
text` pre-filter, the `not words` guard, then the word scan.  `none` means the
segment contributes no timestamp. -/
def detectSegment (seg : Segment) : Option ℚ :=
  if strHas seg.text slideKW = false then none
  else if seg.words.isEmpty then none
  else scanGo seg.words 0 seg.words

/-- Function `detect_marker_timestamps` of `detect_markers.py` restricted to its pure
part: the outer `for seg in result['segments']` loop building `transitions`. -/
def detect_marker_timestamps : List Segment → List ℚ
  | [] => []
  | seg :: rest =>
    match detectSegment seg with
    | some t => t :: detect_marker_timestamps rest
    | none => detect_marker_timestamps rest

/-- Index `i` of `words` holds a qualifying marker word: the word exists, its
text contains `kudasai`, and the concatenated preceding up-to-8 words
contain `slideKW`. -/
def qualAt (words : List Word) (i : Nat) : Bool :=
  match words[i]? with
  | some w => strHas w.word kudasai && strHas (precedingText words i) slideKW
  | none => false

/-! ### The command-line entry point

`main` of `detect_markers.py`, embedded with its effects made explicit: the
filesystem is the predicate `pathEx`, the transcription collaborator
(model load + inference, external to this program) is the function
`transcribe`, and the process outcome is a `CLIResult` recording the exit
code and what was printed on each stream. -/

/-- One line printed to standard output: either a literal string, or the
JSON serialization of a timestamp list (whose float formatting is left
abstract). -/
inductive OutLine where
  | text : String → OutLine
  | json : List ℚ → OutLine
deriving DecidableEq, Repr

/-- Outcome of a program run: exit code, stdout lines, stderr lines. -/
structure CLIResult where
  exitCode : Nat
  stdout : List OutLine
  stderr : List String
deriving DecidableEq, Repr

/-- The usage message printed to stderr when the audio path is missing. -/
def usageMsg : String :=
  "Usage: python3 src/detect_markers.py <mp3_path> [--model small]"

/-- Embeds `json.dumps(\x7b"error": f"File not found: \x7bmp3_path\x7d"\x7d)`. -/
def errJson (path : String) : String :=
  "\x7b\"error\": \"File not found: " ++ path ++ "\"\x7d"

/-- The `--model` option loop of `main`:
`for i, arg in enumerate(sys.argv[2:], 2): if arg == '--model' and
i + 1 < len(sys.argv): model_name = sys.argv[i + 1]`. -/
def parseModel (argv : List String) : String :=
  ((List.range argv.length).drop 2).foldl
    (fun acc i =>
      if argv.getD i "" = "--model" ∧ i + 1 < argv.length then argv.getD (i + 1) ""
      else acc)
    "small"

/-- Function `main` of `detect_markers.py`: usage check, `--model` parsing, existence
check, then transcription and scanning. -/
def mainProg (argv : List String) (pathEx : String → Bool)
    (transcribe : String → String → List Segment) : CLIResult :=
  if argv.length < 2 then ⟨1, [], [usageMsg]⟩
  else
    let mp3 := argv.getD 1 ""
    let model := parseModel argv
    if pathEx mp3 = false then ⟨1, [OutLine.text (errJson mp3)], []⟩
    else ⟨0, [OutLine.json (detect_marker_timestamps (transcribe mp3 model))], []⟩

/-! ### Sanity checks: the embedding evaluates on the spec's examples -/

theorem sanity_keyword : strHas "次のスライドに進んでください" slideKW = true := by decide

theorem sanity_fragment : strHas "くだ" kudasai = false := by decide

theorem sanity_round_id : round2 (mkRat 3576 100) = mkRat 3576 100 := by decide

theorem sanity_round_tie_up : round2 (mkRat 2675 1000) = mkRat 268 100 := by decide

theorem sanity_round_tie_down : round2 (mkRat 2665 1000) = mkRat 266 100 := by decide

theorem sanity_end_to_end :
    detect_marker_timestamps
      [⟨"次のスライドに進んでください",
        [⟨"次の", 1⟩, ⟨"スライ", 2⟩, ⟨"ド", 3⟩, ⟨"に進んで", 4⟩,
         ⟨"ください", mkRat 3576 100⟩]⟩] =
      [mkRat 3576 100] := by decide

/-! ### Lemmas about the word scan -/

theorem qualAt_eq_of_get (words : List Word) (i : Nat) (w : Word)
    (h : words[i]? = some w) :
    qualAt words i =
      (strHas w.word kudasai && strHas (precedingText words i) slideKW) := by
  simp [qualAt, h]

theorem scanGo_eq_none (words : List Word) :
    ∀ (k : Nat) (rest : List Word),
      (∀ (m : Nat) (w : Word), rest[m]? = some w →
        (strHas w.word kudasai &&
          strHas (precedingText words (k + m)) slideKW) = false) →
      scanGo words k rest = none
  | _, [], _ => rfl
  | k, w0 :: rest, h => by
    have h0 := h 0 w0 (by simp)
    rw [Nat.add_zero] at h0
    have ih := scanGo_eq_none words (k + 1) rest (fun m w hm => by
      have := h (m + 1) w (by simpa using hm)
      rwa [Nat.add_comm m 1, ← Nat.add_assoc] at this)
    rw [scanGo]
    rcases Bool.and_eq_false_iff.mp h0 with hk | hp
    · simp [hk, ih]
    · rcases hk : strHas w0.word kudasai with _ | _
      · simp [hk, ih]
      · simp [hk, hp, ih]

theorem scanGo_eq_some (words : List Word) :
    ∀ (k m : Nat) (rest : List Word) (w : Word),
      rest[m]? = some w →
      (strHas w.word kudasai &&
        strHas (precedingText words (k + m)) slideKW) = true →
      (∀ (n : Nat) (v : Word), n < m → rest[n]? = some v →
        (strHas v.word kudasai &&
          strHas (precedingText words (k + n)) slideKW) = false) →
      scanGo words k rest = some (round2 w.endT)
  | k, 0, w0 :: rest, w, hm, hq, _ => by
    have hw : w0 = w := by simpa using hm
    subst hw
    rw [Nat.add_zero] at hq
    rcases Bool.and_eq_true_iff.mp hq with ⟨h1, h2⟩
    rw [scanGo, h1, if_neg (by simp), if_pos h2]
  | k, m + 1, w0 :: rest, w, hm, hq, hfirst => by
    have h0 := hfirst 0 w0 (Nat.succ_pos m) (by simp)
    rw [Nat.add_zero] at h0
    have ih := scanGo_eq_some words (k + 1) m rest w (by simpa using hm)
      (by rwa [Nat.add_comm m 1, ← Nat.add_assoc] at hq)
      (fun n v hn hv => by
        have := hfirst (n + 1) v (Nat.succ_lt_succ hn) (by simpa using hv)
        rwa [Nat.add_comm n 1, ← Nat.add_assoc] at this)
    rw [scanGo]
    rcases Bool.and_eq_false_iff.mp h0 with hk | hp
    · simp [hk, ih]
    · rcases hk : strHas w0.word kudasai with _ | _
      · simp [hk, ih]
      · simp [hk, hp, ih]

theorem scanGo_mem (words : List Word) :
    ∀ (k : Nat) (rest : List Word) (t : ℚ),
      scanGo words k rest = some t →
      ∃ w ∈ rest, t = round2 w.endT
  | _, [], _, h => by simp [scanGo] at h
  | k, w0 :: rest, t, h => by
    rw [scanGo] at h
    rcases hk : strHas w0.word kudasai with _ | _
    · rw [hk, if_pos rfl] at h
      obtain ⟨w, hw, ht⟩ := scanGo_mem words (k + 1) rest t h
      exact ⟨w, List.mem_cons_of_mem _ hw, ht⟩
    · rw [hk, if_neg (by simp)] at h
      by_cases hp : strHas (precedingText words k) slideKW = true
      · rw [if_pos hp] at h
        exact ⟨w0, List.mem_cons_self _ _, (Option.some_inj.mp h).symm⟩
      · rw [if_neg hp] at h
        obtain ⟨w, hw, ht⟩ := scanGo_mem words (k + 1) rest t h
        exact ⟨w, List.mem_cons_of_mem _ hw, ht⟩

theorem scanGo_some_qual (words : List Word) :
    ∀ (k : Nat) (rest : List Word) (t : ℚ),
      scanGo words k rest = some t →
      ∃ (m : Nat) (v : Word), rest[m]? = some v ∧
        (strHas v.word kudasai &&
          strHas (precedingText words (k + m)) slideKW) = true ∧
        t = round2 v.endT
  | _, [], _, h => by simp [scanGo] at h
  | k, w0 :: rest, t, h => by
    rw [scanGo] at h
    rcases hk : strHas w0.word kudasai with _ | _
    · rw [hk, if_pos rfl] at h
      obtain ⟨m, v, hm, hq, ht⟩ := scanGo_some_qual words (k + 1) rest t h
      exact ⟨m + 1, v, by simpa using hm,
        by rwa [Nat.add_assoc, Nat.add_comm 1 m] at hq, ht⟩
    · rw [hk, if_neg (by simp)] at h
      by_cases hp : strHas (precedingText words k) slideKW = true
      · rw [if_pos hp] at h
        exact ⟨0, w0, by simp, by rw [Nat.add_zero, hk, hp]; rfl,
          (Option.some_inj.mp h).symm⟩
      · rw [if_neg hp] at h
        obtain ⟨m, v, hm, hq, ht⟩ := scanGo_some_qual words (k + 1) rest t h
        exact ⟨m + 1, v, by simpa using hm,
          by rwa [Nat.add_assoc, Nat.add_comm 1 m] at hq, ht⟩

theorem detectSegment_mem (seg : Segment) (t : ℚ)
    (h : detectSegment seg = some t) :
    ∃ w ∈ seg.words, t = round2 w.endT := by
  rw [detectSegment] at h
  split at h
  · exact absurd h (by simp)
  · split at h
    · exact absurd h (by simp)
    · exact scanGo_mem seg.words 0 seg.words t h

theorem detect_eq_filterMap (segs : List Segment) :
    detect_marker_timestamps segs = segs.filterMap detectSegment := by
  induction segs with
  | nil => rfl
  | cons seg rest ih =>
    rw [detect_marker_timestamps, List.filterMap_cons]
    cases h : detectSegment seg <;> simp [h, ih]

theorem detect_mem (segs : List Segment) (t : ℚ)
    (h : t ∈ detect_marker_timestamps segs) :
    ∃ seg ∈ segs, ∃ w ∈ seg.words, t = round2 w.endT := by
  rw [detect_eq_filterMap] at h
  obtain ⟨seg, hseg, hd⟩ := List.mem_filterMap.mp h
  exact ⟨seg, hseg, detectSegment_mem seg t hd⟩

/-! ### Round-half-even: specification form and monotonicity -/

/-- Proof-side form of `roundHE` on a rational number, phrased with `Int.floor`. -/
def roundHEQ (q : ℚ) : ℤ :=
  if q - ⌊q⌋ < 1/2 then ⌊q⌋
  else if 1/2 < q - ⌊q⌋ then ⌊q⌋ + 1
  else if ⌊q⌋ % 2 = 0 then ⌊q⌋ else ⌊q⌋ + 1

theorem roundHEQ_ge (q : ℚ) : ⌊q⌋ ≤ roundHEQ q := by
  unfold roundHEQ; split_ifs <;> omega

theorem roundHEQ_le (q : ℚ) : roundHEQ q ≤ ⌊q⌋ + 1 := by
  unfold roundHEQ; split_ifs <;> omega

theorem roundHEQ_mono {x y : ℚ} (h : x ≤ y) : roundHEQ x ≤ roundHEQ y := by
  have hf : ⌊x⌋ ≤ ⌊y⌋ := Int.floor_mono h
  rcases lt_or_eq_of_le hf with hlt | heq
  · calc roundHEQ x ≤ ⌊x⌋ + 1 := roundHEQ_le x
      _ ≤ ⌊y⌋ := hlt
      _ ≤ roundHEQ y := roundHEQ_ge y
  · have hxy : x - (⌊x⌋ : ℚ) ≤ y - (⌊y⌋ : ℚ) := by
      rw [← heq]; linarith
    unfold roundHEQ
    rw [← heq]
    split_ifs <;> first | omega | linarith

theorem roundHE_eq_spec (a : ℤ) (d : ℕ) (hd : d ≠ 0) :
    roundHE a d = roundHEQ ((a : ℚ) / (d : ℚ)) := by
  have hdz : (0 : ℤ) < (d : ℤ) := by exact_mod_cast Nat.pos_of_ne_zero hd
  have hdq : (0 : ℚ) < (d : ℚ) := by exact_mod_cast Nat.pos_of_ne_zero hd
  have hfl : ⌊(a : ℚ) / (d : ℚ)⌋ = a / (d : ℤ) :=
    Rat.floor_intCast_div_natCast a d
  have hfrac : (a : ℚ) / (d : ℚ) - ((a / (d : ℤ) : ℤ) : ℚ) =
      ((a % (d : ℤ) : ℤ) : ℚ) / (d : ℚ) := by
    have hm : ((a % (d : ℤ) : ℤ) : ℚ) =
        (a : ℚ) - ((a / (d : ℤ) : ℤ) : ℚ) * (d : ℚ) := by
      rw [Int.emod_def]; push_cast; ring
    rw [hm, sub_div, mul_div_assoc, div_self hdq.ne', mul_one]
  have c1 : (((a % (d : ℤ) : ℤ) : ℚ) / (d : ℚ) < 1/2) ↔
      (2 * (a % (d : ℤ)) < (d : ℤ)) := by
    rw [div_lt_div_iff₀ hdq (by norm_num : (0:ℚ) < 2), one_mul, mul_comm]
    exact_mod_cast Iff.rfl
  have c2 : ((1:ℚ)/2 < ((a % (d : ℤ) : ℤ) : ℚ) / (d : ℚ)) ↔
      ((d : ℤ) < 2 * (a % (d : ℤ))) := by
    rw [div_lt_div_iff₀ (by norm_num : (0:ℚ) < 2) hdq, one_mul, mul_comm]
    exact_mod_cast Iff.rfl
  simp only [roundHEQ, roundHE, hfl, hfrac, c1, c2]

theorem round2_eq_spec (x : ℚ) :
    round2 x = (roundHEQ (100 * x) : ℚ) / 100 := by
  have h1 : ((100 * x.num : ℤ) : ℚ) / (x.den : ℚ) = 100 * x := by
    push_cast
    rw [mul_div_assoc, Rat.num_div_den]
  rw [round2, Rat.mkRat_eq_divInt, Rat.divInt_eq_div,
    roundHE_eq_spec _ _ x.den_nz, h1]
  norm_num

theorem round2_mono {x y : ℚ} (h : x ≤ y) : round2 x ≤ round2 y := by
  rw [round2_eq_spec, round2_eq_spec]
  have h1 : roundHEQ (100 * x) ≤ roundHEQ (100 * y) :=
    roundHEQ_mono (by linarith)
  have h2 : ((roundHEQ (100 * x) : ℤ) : ℚ) ≤ ((roundHEQ (100 * y) : ℤ) : ℚ) := by
    exact_mod_cast h1
  linarith

/-! ### Claims -/

/-- C2: for every segment whose full text does not contain the keyword
`'スライド'`, the scanner emits no timestamp for that segment, regardless of
what its word tokens contain. -/
theorem C2_prefilter_skips (seg : Segment)
    (h : strHas seg.text slideKW = false) :
    detectSegment seg = none := by
  rw [detectSegment, if_pos h]

/-- C2 witness: a segment whose text lacks the keyword but whose word tokens
would otherwise qualify still yields no timestamp. -/
theorem C2_prefilter_skips_witness :
    strHas "こんにちは" slideKW = false ∧
    qualAt [⟨"スライド", 1⟩, ⟨"ください", 2⟩] 1 = true ∧
    detectSegment ⟨"こんにちは", [⟨"スライド", 1⟩, ⟨"ください", 2⟩]⟩ = none :=
  ⟨by decide, by decide,
    C2_prefilter_skips ⟨"こんにちは", [⟨"スライド", 1⟩, ⟨"ください", 2⟩]⟩ (by decide)⟩

/-- C6: a segment whose full text contains the keyword but whose word-token
list is empty yields no timestamp. -/
theorem C6_no_words_skips (seg : Segment)
    (h : seg.words = []) :
    detectSegment seg = none := by
  simp [detectSegment, h]

/-- C6 witness. -/
theorem C6_no_words_skips_witness :
    strHas "次のスライドに進んでください" slideKW = true ∧
    detectSegment ⟨"次のスライドに進んでください", []⟩ = none :=
  ⟨by decide, C6_no_words_skips ⟨"次のスライドに進んでください", []⟩ rfl⟩

/-- C8: if no single word token contains `'ください'`, the segment yields no
timestamp, even when the concatenation of its word tokens contains both the
keyword and the marker (a marker fragmented across token boundaries is never
detected). -/
theorem C8_fragmented_marker_missed (seg : Segment)
    (h : ∀ w ∈ seg.words, strHas w.word kudasai = false) :
    detectSegment seg = none := by
  rw [detectSegment]
  split_ifs with h1 h2
  · rfl
  · rfl
  · exact scanGo_eq_none seg.words 0 seg.words (fun m w hm => by
      rw [h w (List.getElem?_mem hm), Bool.false_and])

/-- C8 witness: `'ください'` is split as `'くだ'`/`'さい'`; the concatenated
token text contains both substrings, yet nothing is emitted. -/
theorem C8_fragmented_marker_missed_witness :
    (∀ w ∈ [⟨"スライ", 1⟩, ⟨"ド", 2⟩, ⟨"くだ", 3⟩, (⟨"さい", 4⟩ : Word)],
      strHas w.word kudasai = false) ∧
    strHas "スライドください" kudasai = true ∧
    strHas "スライドください" slideKW = true ∧
    detectSegment ⟨"スライドください",
      [⟨"スライ", 1⟩, ⟨"ド", 2⟩, ⟨"くだ", 3⟩, ⟨"さい", 4⟩]⟩ = none :=
  ⟨by decide, by decide, by decide,
    C8_fragmented_marker_missed
      ⟨"スライドください", [⟨"スライ", 1⟩, ⟨"ド", 2⟩, ⟨"くだ", 3⟩, ⟨"さい", 4⟩]⟩
      (by decide)⟩

/-- C9: the lookback window excludes the candidate marker word itself.  For
every segment and every word containing `'ください'` whose own text contains
the keyword while its up-to-8 preceding words do not, that word does not
qualify, and any timestamp the segment does emit is anchored at a different,
qualifying word — so no timestamp is ever emitted for that word. -/
theorem C9_lookback_excludes_candidate (seg : Segment) (i : Nat) (w : Word)
    (hw : seg.words[i]? = some w)
    (hkud : strHas w.word kudasai = true)
    (hself : strHas w.word slideKW = true)
    (hprec : strHas (precedingText seg.words i) slideKW = false) :
    qualAt seg.words i = false ∧
    ∀ t, detectSegment seg = some t →
      ∃ (j : Nat) (v : Word), j ≠ i ∧ seg.words[j]? = some v ∧
        qualAt seg.words j = true ∧ t = round2 v.endT := by
  have hqi : qualAt seg.words i = false := by
    rw [qualAt_eq_of_get seg.words i w hw, hprec, Bool.and_false]
  refine ⟨hqi, fun t ht => ?_⟩
  rw [detectSegment] at ht
  split at ht
  case isTrue => exact absurd ht (by simp)
  case isFalse =>
    split at ht
    case isTrue => exact absurd ht (by simp)
    case isFalse =>
      obtain ⟨j, v, hj, hq, htv⟩ := scanGo_some_qual seg.words 0 seg.words t ht
      rw [Nat.zero_add] at hq
      have hqj : qualAt seg.words j = true := by
        rw [qualAt_eq_of_get seg.words j v hj]; exact hq
      have hne : j ≠ i := by
        intro he
        rw [he, hqi] at hqj
        exact Bool.noConfusion hqj
      exact ⟨j, v, hne, hj, hqj, htv⟩

/-- C9 witness: word 0 (`'スライドください'`) contains `'ください'` and the
keyword only in its own text (its lookback is empty), so it does not qualify;
the segment's emitted timestamp `round2 2 = 2` is anchored at word 1
(`'どうぞください'`), whose lookback does contain the keyword. -/
theorem C9_lookback_excludes_candidate_witness :
    ([⟨"スライドください", 1⟩, ⟨"どうぞください", 2⟩] : List Word)[0]? =
      some ⟨"スライドください", 1⟩ ∧
    strHas "スライドください" kudasai = true ∧
    strHas "スライドください" slideKW = true ∧
    strHas (precedingText [⟨"スライドください", 1⟩, ⟨"どうぞください", 2⟩] 0)
      slideKW = false ∧
    detectSegment ⟨"スライドください",
      [⟨"スライドください", 1⟩, ⟨"どうぞください", 2⟩]⟩ = some 2 ∧
    (qualAt [⟨"スライドください", 1⟩, ⟨"どうぞください", 2⟩] 0 = false ∧
      ∀ t, detectSegment ⟨"スライドください",
          [⟨"スライドください", 1⟩, ⟨"どうぞください", 2⟩]⟩ = some t →
        ∃ (j : Nat) (v : Word), j ≠ 0 ∧
          ([⟨"スライドください", 1⟩, ⟨"どうぞください", 2⟩] : List Word)[j]? =
            some v ∧
          qualAt [⟨"スライドください", 1⟩, ⟨"どうぞください", 2⟩] j = true ∧
          t = round2 v.endT) :=
  ⟨by decide, by decide, by decide, by decide, by decide,
    C9_lookback_excludes_candidate
      ⟨"スライドください", [⟨"スライドください", 1⟩, ⟨"どうぞください", 2⟩]⟩
      0 ⟨"スライドください", 1⟩ (by decide) (by decide) (by decide) (by decide)⟩

/-- C5: the scanner is a homomorphism for segment-list concatenation (so the
emitted timestamps appear in segment-traversal order), and the output list is
never longer than the input segment list. -/
theorem C5_order_and_length :
    (∀ xs ys : List Segment,
      detect_marker_timestamps (xs ++ ys) =
        detect_marker_timestamps xs ++ detect_marker_timestamps ys) ∧
    (∀ segs : List Segment,
      (detect_marker_timestamps segs).length ≤ segs.length) := by
  constructor
  · intro xs ys
    rw [detect_eq_filterMap, detect_eq_filterMap, detect_eq_filterMap,
      List.filterMap_append]
  · intro segs
    rw [detect_eq_filterMap]
    exact List.length_filterMap_le _ _

/-- C3: at most one timestamp is emitted per segment — the output is the
`filterMap` of the per-segment scan, which returns an `Option` — and the word
scan stops at the first qualifying word: whenever index `i` qualifies and no
earlier index does, the scan returns that word's rounded end time. -/
theorem C3_first_match_wins :
    (∀ segs : List Segment,
      detect_marker_timestamps segs = segs.filterMap detectSegment) ∧
    (∀ (words : List Word) (i : Nat) (w : Word),
      words[i]? = some w →
      qualAt words i = true →
      (∀ j ∈ List.range i, qualAt words j = false) →
      scanGo words 0 words = some (round2 w.endT)) := by
  refine ⟨detect_eq_filterMap, fun words i w hw hq hfirst => ?_⟩
  have hc : (strHas w.word kudasai &&
      strHas (precedingText words i) slideKW) = true := by
    rw [← qualAt_eq_of_get words i w hw]; exact hq
  exact scanGo_eq_some words 0 i words w hw
    (by rw [Nat.zero_add]; exact hc)
    (fun n v hn hv => by
      rw [Nat.zero_add, ← qualAt_eq_of_get words n v hv]
      exact hfirst n (List.mem_range.mpr hn))

/-- C3 witness: two qualifying words at indices 1 and 3; the scan returns the
end time of the word at index 1. -/
theorem C3_first_match_wins_witness :
    detect_marker_timestamps
        [⟨"スライドくださいスライドください",
          [⟨"スライド", 1⟩, ⟨"ください", 2⟩, ⟨"スライド", 3⟩, ⟨"ください", 4⟩]⟩] =
      List.filterMap detectSegment
        [⟨"スライドくださいスライドください",
          [⟨"スライド", 1⟩, ⟨"ください", 2⟩, ⟨"スライド", 3⟩, ⟨"ください", 4⟩]⟩] ∧
    scanGo [⟨"スライド", 1⟩, ⟨"ください", 2⟩, ⟨"スライド", 3⟩, ⟨"ください", 4⟩] 0
        [⟨"スライド", 1⟩, ⟨"ください", 2⟩, ⟨"スライド", 3⟩, ⟨"ください", 4⟩] =
      some (round2 2) :=
  ⟨C3_first_match_wins.1 _,
    C3_first_match_wins.2
      [⟨"スライド", 1⟩, ⟨"ください", 2⟩, ⟨"スライド", 3⟩, ⟨"ください", 4⟩]
      1 ⟨"ください", 2⟩ (by decide) (by decide) (by decide)⟩

/-- C1 as stated is false on the code in two ways: (a) it ignores the
segment-text pre-filter — a segment whose word tokens qualify but whose full
text lacks the keyword emits nothing; (b) with several qualifying marker
words, the emitted timestamp is the first one's end time, not an arbitrary
qualifying word's (here index 3 qualifies, yet the output is `round2 2 = 2`,
not `round2 4 = 4`). -/
theorem C1_counterexample :
    (qualAt [⟨"スライド", 1⟩, ⟨"ください", 2⟩] 1 = true ∧
      detectSegment ⟨"こんにちは", [⟨"スライド", 1⟩, ⟨"ください", 2⟩]⟩ = none) ∧
    (strHas "スライドくださいスライドください" slideKW = true ∧
      qualAt [⟨"スライド", 1⟩, ⟨"ください", 2⟩, ⟨"スライド", 3⟩, ⟨"ください", 4⟩] 3 =
        true ∧
      detectSegment ⟨"スライドくださいスライドください",
        [⟨"スライド", 1⟩, ⟨"ください", 2⟩, ⟨"スライド", 3⟩, ⟨"ください", 4⟩]⟩ =
        some 2 ∧
      round2 4 = 4 ∧ (2 : ℚ) ≠ 4) := by
  refine ⟨⟨by decide, by decide⟩, by decide, by decide, by decide, by decide, by decide⟩

/-- C1 (amended): for every segment whose full text contains the keyword and
that contains a word whose text contains `'ください'` whose up-to-8 preceding
words concatenate to a string containing the keyword, the scanner emits
exactly one timestamp for that segment, equal to the end time of the *first*
such qualifying word, rounded to 2 decimal places. -/
theorem C1_amended_marker_timestamp (seg : Segment) (i : Nat) (w : Word)
    (htext : strHas seg.text slideKW = true)
    (hw : seg.words[i]? = some w)
    (hq : qualAt seg.words i = true)
    (hfirst : ∀ j ∈ List.range i, qualAt seg.words j = false) :
    detectSegment seg = some (round2 w.endT) := by
  have hne : ¬(seg.words.isEmpty = true) := by
    intro he
    rw [List.isEmpty_iff.mp he] at hw
    exact Option.noConfusion hw
  rw [detectSegment, if_neg (by simp [htext]), if_neg hne]
  have hc : (strHas w.word kudasai &&
      strHas (precedingText seg.words i) slideKW) = true := by
    rw [← qualAt_eq_of_get seg.words i w hw]; exact hq
  exact scanGo_eq_some seg.words 0 i seg.words w hw
    (by rw [Nat.zero_add]; exact hc)
    (fun n v hn hv => by
      rw [Nat.zero_add, ← qualAt_eq_of_get seg.words n v hv]
      exact hfirst n (List.mem_range.mpr hn))

/-- C1 (amended) witness: the spec's end-to-end example, tokenized at
sub-word granularity with the marker word ending at 35.76 s. -/
theorem C1_amended_marker_timestamp_witness :
    strHas "次のスライドに進んでください" slideKW = true ∧
    detectSegment ⟨"次のスライドに進んでください",
        [⟨"次の", 1⟩, ⟨"スライ", 2⟩, ⟨"ド", 3⟩, ⟨"に進んで", 4⟩,
         ⟨"ください", mkRat 3576 100⟩]⟩ =
      some (round2 (mkRat 3576 100)) :=
  ⟨by decide,
    C1_amended_marker_timestamp
      ⟨"次のスライドに進んでください",
        [⟨"次の", 1⟩, ⟨"スライ", 2⟩, ⟨"ド", 3⟩, ⟨"に進んで", 4⟩,
         ⟨"ください", mkRat 3576 100⟩]⟩
      4 ⟨"ください", mkRat 3576 100⟩ (by decide) (by decide) (by decide) (by decide)⟩

theorem detect_pairwise : ∀ (segs : List Segment),
    List.Pairwise (· ≤ ·)
      ((segs.map (fun seg => seg.words.map (fun w => w.endT))).flatten) →
    List.Pairwise (· ≤ ·) (detect_marker_timestamps segs)
  | [], _ => by simp [detect_marker_timestamps]
  | seg :: rest, h => by
    rw [List.map_cons, List.flatten_cons, List.pairwise_append] at h
    obtain ⟨h1, h2, h12⟩ := h
    rw [detect_marker_timestamps]
    cases hds : detectSegment seg with
    | none => exact detect_pairwise rest h2
    | some t =>
      refine List.Pairwise.cons (fun u hu => ?_) (detect_pairwise rest h2)
      obtain ⟨w, hw, ht⟩ := detectSegment_mem seg t hds
      obtain ⟨seg1, hseg1, w1, hw1, hu1⟩ := detect_mem rest u hu
      have hle : w.endT ≤ w1.endT :=
        h12 _ (List.mem_map_of_mem _ hw)
          _ (List.mem_flatten.mpr ⟨seg1.words.map (fun w => w.endT),
              List.mem_map_of_mem _ hseg1, List.mem_map_of_mem _ hw1⟩)
      rw [ht, hu1]
      exact round2_mono hle

/-- C4 as stated is false on the code: nothing sorts the output, so segments
whose word end times decrease produce a decreasing timestamp list. -/
theorem C4_counterexample :
    ¬ List.Pairwise (· ≤ ·)
        (detect_marker_timestamps
          [⟨"スライドください", [⟨"スライド", 4⟩, ⟨"ください", 5⟩]⟩,
           ⟨"スライドください", [⟨"スライド", 0⟩, ⟨"ください", 1⟩]⟩]) := by
  decide

/-- C4 (amended): every emitted timestamp is some input word's end time
rounded to 2 decimal places, and the output is in non-decreasing order
provided the input words' end times are non-decreasing in traversal order
(as the transcription contract guarantees). -/
theorem C4_amended_round_and_order (segs : List Segment)
    (h : List.Pairwise (· ≤ ·)
      ((segs.map (fun seg => seg.words.map (fun w => w.endT))).flatten)) :
    List.Pairwise (· ≤ ·) (detect_marker_timestamps segs) ∧
    ∀ t ∈ detect_marker_timestamps segs,
      ∃ seg ∈ segs, ∃ w ∈ seg.words, t = round2 w.endT :=
  ⟨detect_pairwise segs h, fun t ht => detect_mem segs t ht⟩

/-- C4 (amended) witness: two qualifying segments with increasing end times. -/
theorem C4_amended_round_and_order_witness :
    List.Pairwise (· ≤ ·)
      (([⟨"スライドください", [⟨"スライド", 1⟩, ⟨"ください", 2⟩]⟩,
         (⟨"スライドください", [⟨"スライド", 3⟩, ⟨"ください", 4⟩]⟩ : Segment)].map
          (fun seg => seg.words.map (fun w => w.endT))).flatten) ∧
    (List.Pairwise (· ≤ ·)
        (detect_marker_timestamps
          [⟨"スライドください", [⟨"スライド", 1⟩, ⟨"ください", 2⟩]⟩,
           ⟨"スライドください", [⟨"スライド", 3⟩, ⟨"ください", 4⟩]⟩]) ∧
      ∀ t ∈ detect_marker_timestamps
          [⟨"スライドください", [⟨"スライド", 1⟩, ⟨"ください", 2⟩]⟩,
           ⟨"スライドください", [⟨"スライド", 3⟩, ⟨"ください", 4⟩]⟩],
        ∃ seg ∈ [⟨"スライドください", [⟨"スライド", 1⟩, ⟨"ください", 2⟩]⟩,
           (⟨"スライドください", [⟨"スライド", 3⟩, ⟨"ください", 4⟩]⟩ : Segment)],
          ∃ w ∈ seg.words, t = round2 w.endT) :=
  ⟨by decide, C4_amended_round_and_order _ (by decide)⟩

/-- C7: invoked with an audio path that does not exist, the program prints
`{"error": "File not found: <path>"}` to standard output (stderr stays
empty) and exits with code 1. -/
theorem C7_file_not_found (prog p : String) (rest : List String)
    (pathEx : String → Bool) (transcribe : String → String → List Segment)
    (h : pathEx p = false) :
    mainProg (prog :: p :: rest) pathEx transcribe =
      ⟨1, [OutLine.text ("\x7b\"error\": \"File not found: " ++ p ++ "\"\x7d")],
        []⟩ := by
  rw [mainProg]
  rw [if_neg (by simp only [List.length_cons]; omega)]
  rw [show (prog :: p :: rest).getD 1 "" = p from rfl]
  rw [if_pos h]
  rfl

/-- C7 witness: the spec's end-to-end example with `missing.mp3`. -/
theorem C7_file_not_found_witness :
    ((fun _ => false) : String → Bool) "missing.mp3" = false ∧
    mainProg ["detect_markers.py", "missing.mp3"] (fun _ => false)
        (fun _ _ => []) =
      ⟨1, [OutLine.text "\x7b\"error\": \"File not found: missing.mp3\"\x7d"], []⟩ :=
  ⟨rfl, C7_file_not_found "detect_markers.py" "missing.mp3" [] (fun _ => false)
    (fun _ _ => []) rfl⟩

/-- C10: a trailing `--model` with no value is silently ignored (the run
proceeds with the default model `'small'`), and with several
`--model <name>` pairs the last one wins. -/
theorem C10_model_option (prog p a b : String) (pathEx : String → Bool)
    (transcribe : String → String → List Segment)
    (h : pathEx p = true) :
    mainProg [prog, p, "--model"] pathEx transcribe =
      ⟨0, [OutLine.json (detect_marker_timestamps (transcribe p "small"))], []⟩ ∧
    parseModel [prog, p, "--model", a, "--model", b] = b := by
  have hlen3 : List.length [prog, p, "--model"] = 3 := by simp
  constructor
  · rw [mainProg]
    rw [if_neg (by rw [hlen3]; omega)]
    rw [show [prog, p, "--model"].getD 1 "" = p from rfl]
    rw [if_neg (by simp [h])]
    have hm : parseModel [prog, p, "--model"] = "small" := by
      rw [parseModel, hlen3]
      rw [show (List.range 3).drop 2 = [2] from rfl]
      simp only [List.foldl_cons, List.foldl_nil]
      rw [if_neg (by simp)]
    rw [hm]
  · have hlen6 : List.length [prog, p, "--model", a, "--model", b] = 6 := by simp
    rw [parseModel, hlen6]
    rw [show (List.range 6).drop 2 = [2, 3, 4, 5] from rfl]
    simp only [List.foldl_cons, List.foldl_nil]
    rw [show [prog, p, "--model", a, "--model", b].getD 2 "" = "--model" from rfl]
    rw [show [prog, p, "--model", a, "--model", b].getD 3 "" = a from rfl]
    rw [show [prog, p, "--model", a, "--model", b].getD 4 "" = "--model" from rfl]
    rw [show [prog, p, "--model", a, "--model", b].getD 5 "" = b from rfl]
    by_cases ha : a = "--model" <;> simp [ha]

/-- C10 witness. -/
theorem C10_model_option_witness :
    ((fun _ => true) : String → Bool) "x.mp3" = true ∧
    (mainProg ["prog", "x.mp3", "--model"] (fun _ => true) (fun _ _ => []) =
      ⟨0, [OutLine.json (detect_marker_timestamps
        ((fun _ _ => ([] : List Segment)) "x.mp3" "small"))], []⟩ ∧
    parseModel ["prog", "x.mp3", "--model", "medium", "--model", "large"] =
      "large") :=
  ⟨rfl, C10_model_option "prog" "x.mp3" "medium" "large" (fun _ => true)
    (fun _ _ => []) rfl⟩
